import Mathlib

/-!
Verification of the text buffer / word-wrap / cursor engine of the
nunitius sender rewrite (src/rewrite/sender/src/editor.rs).

Lines are modelled as lists of characters; the editor state mirrors the
Rust struct Editor \x7b buffer, line, column, width \x7d.  Mutating
operations that can panic in Rust (out-of-range indexing, out-of-range
removal or insertion) return Option: none models the panic branch.
A second family of operations (add_bytes, rewrap_bytes) re-reads the same
source with byte-accurate lengths and boundary checks, for the claims
about byte versus character indexing.
-/

namespace Nunitius

/-- Modelled from the spec: one step of tokenisation, prepending a character
to an already tokenised tail.  The character joins the first token when both
are whitespace or both are non-whitespace, keeping runs maximal. -/
def tokensGlue (c : Char) : List (List Char) → List (List Char)
  | [] => [[c]]
  | [] :: ts => [c] :: [] :: ts
  | (d :: t) :: ts =>
    if c.isWhitespace = d.isWhitespace then (c :: d :: t) :: ts
    else [c] :: (d :: t) :: ts

/-- Modelled from the spec: the word-wrap module (src/rewrite/sender/src/wrap.rs,
declared by mod wrap in editor.rs) is not present under src/.  Tokenisation per
section 4.1: maximal runs of whitespace or of non-whitespace characters. -/
def tokens : List Char → List (List Char)
  | [] => []
  | c :: cs => tokensGlue c (tokens cs)

/-- Modelled from the spec: greedy accumulation of tokens onto lines per
section 4.1.  A token joins the current line when the combined length fits the
width, or immediately when the current line is empty; otherwise the current
line is closed and the token starts a new line. -/
def wrapAux (width : Nat) (cur : List Char) : List (List Char) → List (List Char)
  | [] => [cur]
  | t :: ts =>
    if cur.length + t.length ≤ width ∨ cur = [] then wrapAux width (cur ++ t) ts
    else cur :: wrapAux width t ts

/-- Modelled from the spec: the word-wrap function of section 4.1, over the
concatenation of the input fragments.  Empty text yields one empty line. -/
def wrap (fragments : List (List Char)) (width : Nat) : List (List Char) :=
  wrapAux width [] (tokens fragments.flatten)

/-- editor.rs is_line_para_separator: empty or all-whitespace line. -/
def is_line_para_separator (l : List Char) : Bool :=
  l.isEmpty || l.all (fun c => c.isWhitespace)

/-- editor.rs current_para_idx, upward scan: from index i down to 0, the first
separator line at idx gives start idx + 1; with none the start is 0. -/
def paraStart (buf : List (List Char)) : Nat → Nat
  | 0 => if is_line_para_separator (buf.getD 0 []) then 1 else 0
  | i + 1 =>
    if is_line_para_separator (buf.getD (i + 1) []) then i + 2 else paraStart buf i

/-- editor.rs current_para_idx, downward scan: from index i on, the first
separator line at idx gives end idx - 1; with none the end is length - 1.
The fuel argument is the number of lines left to scan. -/
def paraEndAux (buf : List (List Char)) : Nat → Nat → Nat
  | 0, _ => buf.length - 1
  | k + 1, i =>
    if is_line_para_separator (buf.getD i []) then i - 1 else paraEndAux buf k (i + 1)

/-- editor.rs rewrap_current_para, the cursor remapping walk over the wrapped
lines (the loop labelled outer): lines are stepped unit by unit until the
running count reaches the target position. -/
def cursorWalk : List (List Char) → Nat → Nat → Nat × Nat
  | [], _, nl => (nl, 0)
  | l :: rest, pos, nl =>
    if pos = 0 then (nl, 0)
    else if pos ≤ l.length then (nl, pos)
    else cursorWalk rest (pos - l.length) (nl + 1)

/-- editor.rs struct Editor. -/
structure Editor where
  buffer : List (List Char)
  line : Nat
  column : Nat
  width : Nat
deriving DecidableEq, Repr

/-- editor.rs Editor::new. -/
def Editor.new (width : Nat) : Editor :=
  { buffer := [[]], line := 0, column := 0, width := width }

/-- Rust Vec join with a newline between lines (editor.rs render). -/
def joinLines : List (List Char) → List Char
  | [] => []
  | [l] => l
  | l :: rest => l ++ '\n' :: joinLines rest

/-- editor.rs Editor::render. -/
def Editor.render (e : Editor) : List Char :=
  joinLines e.buffer

/-- editor.rs Editor::resize: only assigns the stored width. -/
def Editor.resize (e : Editor) (width : Nat) : Editor :=
  { e with width := width }

/-- editor.rs Editor::cursor. -/
def Editor.cursor (e : Editor) : Nat × Nat :=
  (e.line, e.column)

/-- editor.rs Editor::at_last_line: line == buffer.len() or buffer.len() == 1. -/
def Editor.at_last_line (e : Editor) : Bool :=
  e.line == e.buffer.length || e.buffer.length == 1

/-- editor.rs Editor::rewrap_current_para: compute the paragraph range, wrap
it, remap the cursor by the walk, and splice the wrapped lines in place.
none models the panic of indexing buffer[line] out of range. -/
def Editor.rewrap_current_para (e : Editor) : Option Editor :=
  if e.line < e.buffer.length then
    let cur := e.buffer.getD e.line []
    let s := if is_line_para_separator cur then e.line else paraStart e.buffer e.line
    let t := if is_line_para_separator cur then e.line
             else paraEndAux e.buffer (e.buffer.length - e.line) e.line
    let wrapped := wrap ((e.buffer.drop s).take (t + 1 - s)) e.width
    let pos := (((e.buffer.drop s).take (e.line - s)).map List.length).sum + e.column
    let lc := cursorWalk wrapped pos s
    some { e with buffer := e.buffer.take s ++ wrapped ++ e.buffer.drop (t + 1),
                  line := lc.1, column := lc.2 }
  else none

/-- editor.rs Editor::add: push at end of line, otherwise insert at the
column; advance the column; rewrap.  none models the panics of indexing
buffer[line] and of String insert past the end of the line. -/
def Editor.add (e : Editor) (c : Char) : Option Editor :=
  if e.line < e.buffer.length then
    if (e.buffer.getD e.line []).length = e.column then
      Editor.rewrap_current_para
        { e with buffer := e.buffer.set e.line (e.buffer.getD e.line [] ++ [c]),
                 column := e.column + 1 }
    else if e.column < (e.buffer.getD e.line []).length then
      Editor.rewrap_current_para
        { e with buffer := e.buffer.set e.line
                   ((e.buffer.getD e.line []).take e.column
                     ++ c :: (e.buffer.getD e.line []).drop e.column),
                 column := e.column + 1 }
    else none
  else none

/-- editor.rs Editor::backspace: no-op at column 0; otherwise remove the
character before the column, step the column back, rewrap.  none models the
panics of indexing buffer[line] and of String remove past the end. -/
def Editor.backspace (e : Editor) : Option Editor :=
  if e.column = 0 then some e
  else if e.line < e.buffer.length then
    if e.column - 1 < (e.buffer.getD e.line []).length then
      Editor.rewrap_current_para
        { e with buffer := e.buffer.set e.line
                   ((e.buffer.getD e.line []).eraseIdx (e.column - 1)),
                 column := e.column - 1 }
    else none
  else none

/-- editor.rs Editor::enter: split the line at the column, insert the tail as
a new following line, move to column 0 of it.  none models the panic of
String split_off past the end. -/
def Editor.enter (e : Editor) : Option Editor :=
  if e.line < e.buffer.length then
    if e.column ≤ (e.buffer.getD e.line []).length then
      some { e with
             buffer := e.buffer.take e.line
                         ++ [(e.buffer.getD e.line []).take e.column,
                             (e.buffer.getD e.line []).drop e.column]
                         ++ e.buffer.drop (e.line + 1),
             line := e.line + 1, column := 0 }
    else none
  else none

/-- editor.rs Editor::move_left. -/
def Editor.move_left (e : Editor) : Option Editor :=
  if e.line = 0 ∧ e.column = 0 then some e
  else if e.column = 0 then
    if e.line - 1 < e.buffer.length then
      some { e with line := e.line - 1, column := (e.buffer.getD (e.line - 1) []).length }
    else none
  else some { e with column := e.column - 1 }

/-- editor.rs Editor::move_right: both branches evaluate at_end_of_line, which
indexes buffer[line]; none models that panic. -/
def Editor.move_right (e : Editor) : Option Editor :=
  if e.line < e.buffer.length then
    if e.at_last_line ∧ (e.buffer.getD e.line []).length = e.column then some e
    else if (e.buffer.getD e.line []).length = e.column then
      some { e with line := e.line + 1, column := 0 }
    else some { e with column := e.column + 1 }
  else none

/-- editor.rs Editor::move_up: at the first line reset the column, otherwise
step the line up.  No indexing, hence total. -/
def Editor.move_up (e : Editor) : Editor :=
  if e.line = 0 then { e with column := 0 } else { e with line := e.line - 1 }

/-- editor.rs Editor::move_down: at_last_line moves to the end of the current
line (indexing buffer[line], none on panic), otherwise steps the line down. -/
def Editor.move_down (e : Editor) : Option Editor :=
  if e.at_last_line then
    if e.line < e.buffer.length then
      some { e with column := (e.buffer.getD e.line []).length }
    else none
  else some { e with line := e.line + 1 }

/-- Validity of a cursor per the data-model invariant of section 3: the line
index is in range and the column is at most the length of that line. -/
def Wf (e : Editor) : Prop :=
  e.line < e.buffer.length ∧ e.column ≤ (e.buffer.getD e.line []).length

instance (e : Editor) : Decidable (Wf e) := by
  unfold Wf; infer_instance

/-!
Byte-accurate reading of the same source.  Rust String length, as_bytes and
the index arguments of insert, remove and split_off are in UTF-8 bytes, and
insert panics when the index is not on a character boundary.  The operations
below re-read Editor::add and Editor::rewrap_current_para with byte lengths.
-/

/-- Rust String::len of a line: the sum of the UTF-8 sizes of its characters. -/
def byteLen (l : List Char) : Nat :=
  (l.map Char.utf8Size).sum

/-- Whether a byte index lies on a character boundary of the line
(Rust str::is_char_boundary). -/
def isBoundary : List Char → Nat → Bool
  | _, 0 => true
  | [], _ + 1 => false
  | c :: cs, i + 1 =>
    if c.utf8Size ≤ i + 1 then isBoundary cs (i + 1 - c.utf8Size) else false

/-- Rust String::insert at a byte index that is a character boundary. -/
def insertByte : List Char → Nat → Char → List Char
  | l, 0, c => c :: l
  | [], _ + 1, c => [c]
  | d :: ds, i + 1, c =>
    if d.utf8Size ≤ i + 1 then d :: insertByte ds (i + 1 - d.utf8Size) c else d :: ds

/-- Rust String::remove at a byte index that is a character boundary: removes
the character starting at that byte index. -/
def removeByte : List Char → Nat → List Char
  | [], _ => []
  | _ :: ds, 0 => ds
  | d :: ds, i + 1 =>
    if d.utf8Size ≤ i + 1 then d :: removeByte ds (i + 1 - d.utf8Size) else d :: ds

/-- The characters before a byte index that is a character boundary
(the part kept on the line by Rust String::split_off). -/
def takeByte : List Char → Nat → List Char
  | _, 0 => []
  | [], _ + 1 => []
  | d :: ds, i + 1 =>
    if d.utf8Size ≤ i + 1 then d :: takeByte ds (i + 1 - d.utf8Size) else []

/-- The characters from a byte index that is a character boundary on
(the part returned by Rust String::split_off). -/
def dropByte : List Char → Nat → List Char
  | l, 0 => l
  | [], _ + 1 => []
  | d :: ds, i + 1 =>
    if d.utf8Size ≤ i + 1 then dropByte ds (i + 1 - d.utf8Size) else d :: ds

/-- The cursor remapping walk of rewrap_current_para counted in bytes, exactly
as the source does via line.as_bytes(). -/
def cursorWalkBytes : List (List Char) → Nat → Nat → Nat × Nat
  | [], _, nl => (nl, 0)
  | l :: rest, pos, nl =>
    if pos = 0 then (nl, 0)
    else if pos ≤ byteLen l then (nl, pos)
    else cursorWalkBytes rest (pos - byteLen l) (nl + 1)

/-- editor.rs Editor::rewrap_current_para with String::len and as_bytes read
as byte counts. -/
def Editor.rewrap_bytes (e : Editor) : Option Editor :=
  if e.line < e.buffer.length then
    let cur := e.buffer.getD e.line []
    let s := if is_line_para_separator cur then e.line else paraStart e.buffer e.line
    let t := if is_line_para_separator cur then e.line
             else paraEndAux e.buffer (e.buffer.length - e.line) e.line
    let wrapped := wrap ((e.buffer.drop s).take (t + 1 - s)) e.width
    let pos := (((e.buffer.drop s).take (e.line - s)).map byteLen).sum + e.column
    let lc := cursorWalkBytes wrapped pos s
    some { e with buffer := e.buffer.take s ++ wrapped ++ e.buffer.drop (t + 1),
                  line := lc.1, column := lc.2 }
  else none

/-- editor.rs Editor::add with the column read as a byte index: String::insert
panics (none) when the column is past the end or not on a character
boundary. -/
def Editor.add_bytes (e : Editor) (c : Char) : Option Editor :=
  if e.line < e.buffer.length then
    if byteLen (e.buffer.getD e.line []) = e.column then
      Editor.rewrap_bytes
        { e with buffer := e.buffer.set e.line (e.buffer.getD e.line [] ++ [c]),
                 column := e.column + 1 }
    else if e.column < byteLen (e.buffer.getD e.line [])
            ∧ isBoundary (e.buffer.getD e.line []) e.column then
      Editor.rewrap_bytes
        { e with buffer := e.buffer.set e.line (insertByte (e.buffer.getD e.line []) e.column c),
                 column := e.column + 1 }
    else none
  else none

/-- editor.rs Editor::backspace with the column read as a byte index:
String::remove(column - 1) panics (none) when the index is past the end of the
line or not on a character boundary. -/
def Editor.backspace_bytes (e : Editor) : Option Editor :=
  if e.column = 0 then some e
  else if e.line < e.buffer.length then
    if e.column - 1 < byteLen (e.buffer.getD e.line [])
        ∧ isBoundary (e.buffer.getD e.line []) (e.column - 1) then
      Editor.rewrap_bytes
        { e with buffer := e.buffer.set e.line
                   (removeByte (e.buffer.getD e.line []) (e.column - 1)),
                 column := e.column - 1 }
    else none
  else none

/-- editor.rs Editor::enter with the column read as a byte index:
String::split_off(column) panics (none) when the index is past the end of the
line or not on a character boundary. -/
def Editor.enter_bytes (e : Editor) : Option Editor :=
  if e.line < e.buffer.length then
    if e.column ≤ byteLen (e.buffer.getD e.line [])
        ∧ isBoundary (e.buffer.getD e.line []) e.column then
      some { e with
             buffer := e.buffer.take e.line
                         ++ [takeByte (e.buffer.getD e.line []) e.column,
                             dropByte (e.buffer.getD e.line []) e.column]
                         ++ e.buffer.drop (e.line + 1),
             line := e.line + 1, column := 0 }
    else none
  else none

/-- editor.rs Editor::move_right with at_end_of_line comparing the column
with the byte length of the line, as String::len does. -/
def Editor.move_right_bytes (e : Editor) : Option Editor :=
  if e.line < e.buffer.length then
    if e.at_last_line ∧ byteLen (e.buffer.getD e.line []) = e.column then some e
    else if byteLen (e.buffer.getD e.line []) = e.column then
      some { e with line := e.line + 1, column := 0 }
    else some { e with column := e.column + 1 }
  else none

/-- Byte-level cursor validity: the line index is in range and the column is
at most the byte length of that line. -/
def WfBytes (e : Editor) : Prop :=
  e.line < e.buffer.length ∧ e.column ≤ byteLen (e.buffer.getD e.line [])

instance (e : Editor) : Decidable (WfBytes e) := by
  unfold WfBytes; infer_instance

/-! Lemmas about the word-wrap function. -/

theorem tokensGlue_flatten (c : Char) (ts : List (List Char)) :
    (tokensGlue c ts).flatten = c :: ts.flatten := by
  match ts with
  | [] => rfl
  | [] :: ts => rfl
  | (d :: t) :: ts =>
    rw [tokensGlue]
    split <;> simp

theorem tokens_flatten (text : List Char) : (tokens text).flatten = text := by
  induction text with
  | nil => rfl
  | cons c cs ih => rw [tokens, tokensGlue_flatten, ih]

theorem tokensGlue_ne_nil (c : Char) (ts : List (List Char))
    (h : ∀ t ∈ ts, t ≠ []) : ∀ t ∈ tokensGlue c ts, t ≠ [] := by
  match ts with
  | [] => simp [tokensGlue]
  | [] :: ts => exact absurd (h [] (List.mem_cons_self _ _)) (by simp)
  | (d :: t) :: ts =>
    rw [tokensGlue]
    split
    · intro x hx
      rcases List.mem_cons.mp hx with rfl | hx'
      · simp
      · exact h x (List.mem_cons_of_mem _ hx')
    · intro x hx
      rcases List.mem_cons.mp hx with rfl | hx'
      · simp
      · exact h x hx'

theorem tokens_ne_nil (text : List Char) : ∀ t ∈ tokens text, t ≠ [] := by
  induction text with
  | nil => simp [tokens]
  | cons c cs ih =>
    rw [tokens]
    exact tokensGlue_ne_nil c _ ih

theorem wrapAux_flatten (w : Nat) (toks : List (List Char)) :
    ∀ cur : List Char, (wrapAux w cur toks).flatten = cur ++ toks.flatten := by
  induction toks with
  | nil => intro cur; simp [wrapAux]
  | cons t ts ih =>
    intro cur
    rw [wrapAux]
    split <;> simp [ih]

theorem wrapAux_ne (w : Nat) (toks : List (List Char)) :
    ∀ cur : List Char, cur ≠ [] → (∀ t ∈ toks, t ≠ []) →
      ∀ l ∈ wrapAux w cur toks, l ≠ [] := by
  induction toks with
  | nil =>
    intro cur hc _ l hl
    rw [wrapAux] at hl
    rw [List.mem_singleton] at hl
    subst hl
    exact hc
  | cons t ts ih =>
    intro cur hc ht l hl
    rw [wrapAux] at hl
    split at hl
    · refine ih (cur ++ t) ?_ (fun x hx => ht x (List.mem_cons_of_mem _ hx)) l hl
      intro h
      exact hc (List.append_eq_nil.mp h).1
    · rcases List.mem_cons.mp hl with rfl | hl'
      · exact hc
      · exact ih t (ht t (List.mem_cons_self _ _))
          (fun x hx => ht x (List.mem_cons_of_mem _ hx)) l hl'

theorem wrap_lines_ne (fragments : List (List Char)) (w : Nat) :
    wrap fragments w = [[]] ∨ ∀ l ∈ wrap fragments w, l ≠ [] := by
  unfold wrap
  rcases htk : tokens fragments.flatten with _ | ⟨t, ts⟩
  · left; rfl
  · right
    have ht := tokens_ne_nil fragments.flatten
    rw [htk] at ht
    rw [wrapAux, if_pos (Or.inr rfl)]
    exact wrapAux_ne w ts ([] ++ t)
      (by simpa using ht t (List.mem_cons_self _ _))
      (fun x hx => ht x (List.mem_cons_of_mem _ hx))

/-! Lemmas about the cursor remapping walk. -/

theorem cursorWalk_zero (lines : List (List Char)) (s : Nat) :
    cursorWalk lines 0 s = (s, 0) := by
  cases lines <;> simp [cursorWalk]

theorem take_map_length_sum_pos (lines : List (List Char)) (k : Nat)
    (hk : 1 ≤ k) (hne : lines ≠ []) (h3 : ∀ l ∈ lines, l ≠ []) :
    1 ≤ ((lines.take k).map List.length).sum := by
  cases lines with
  | nil => exact absurd rfl hne
  | cons r rs =>
    cases k with
    | zero => omega
    | succ i =>
      have hr : 1 ≤ r.length := List.length_pos.mpr (h3 r (List.mem_cons_self _ _))
      simp only [List.take_succ_cons, List.map_cons, List.sum_cons]
      omega

theorem cursorWalk_boundary (lines : List (List Char)) :
    ∀ (k s : Nat), 1 ≤ k → k ≤ lines.length → (∀ l ∈ lines, l ≠ []) →
      cursorWalk lines (((lines.take k).map List.length).sum) s
        = (s + (k - 1), (lines.getD (k - 1) []).length) := by
  induction lines with
  | nil =>
    intro k s h1 h2 _
    simp at h2
    omega
  | cons l rest ih =>
    intro k s h1 h2 h3
    have hl : 1 ≤ l.length := List.length_pos.mpr (h3 l (List.mem_cons_self _ _))
    obtain ⟨j, rfl⟩ : ∃ j, k = j + 1 := ⟨k - 1, by omega⟩
    simp only [List.take_succ_cons, List.map_cons, List.sum_cons]
    cases j with
    | zero =>
      simp only [List.take_zero, List.map_nil, List.sum_nil, Nat.add_zero]
      rw [cursorWalk, if_neg (by omega), if_pos (by omega)]
      simp
    | succ i =>
      have hrest : rest ≠ [] := by
        intro h
        rw [h] at h2
        simp at h2
      have hS : 1 ≤ ((rest.take (i + 1)).map List.length).sum :=
        take_map_length_sum_pos rest (i + 1) (by omega) hrest
          (fun x hx => h3 x (List.mem_cons_of_mem _ hx))
      rw [cursorWalk, if_neg (by omega), if_neg (by omega)]
      have hrec := ih (i + 1) (s + 1) (by omega) (by simpa using h2)
        (fun x hx => h3 x (List.mem_cons_of_mem _ hx))
      have harith : l.length + ((rest.take (i + 1)).map List.length).sum - l.length
          = ((rest.take (i + 1)).map List.length).sum := by omega
      rw [harith, hrec]
      simp only [Nat.add_sub_cancel, List.getD_cons_succ]
      congr 1
      omega

/-! Lemmas about the editor operations. -/

theorem rewrap_isSome (e : Editor) (h : e.line < e.buffer.length) :
    (Editor.rewrap_current_para e).isSome := by
  unfold Editor.rewrap_current_para
  rw [if_pos h]
  rfl

theorem rewrap_bytes_isSome (e : Editor) (h : e.line < e.buffer.length) :
    (Editor.rewrap_bytes e).isSome := by
  unfold Editor.rewrap_bytes
  rw [if_pos h]
  rfl

theorem byteLen_all_one (l : List Char) (h : ∀ c ∈ l, c.utf8Size = 1) :
    byteLen l = l.length := by
  induction l with
  | nil => rfl
  | cons c cs ih =>
    have hc : c.utf8Size = 1 := h c (List.mem_cons_self _ _)
    have := ih (fun x hx => h x (List.mem_cons_of_mem _ hx))
    simp only [byteLen, List.map_cons, List.sum_cons, List.length_cons] at *
    omega

theorem isBoundary_all_one (l : List Char) :
    ∀ i : Nat, (∀ c ∈ l, c.utf8Size = 1) → i ≤ l.length → isBoundary l i = true := by
  induction l with
  | nil =>
    intro i _ hi
    simp only [List.length_nil, Nat.le_zero] at hi
    subst hi
    rfl
  | cons c cs ih =>
    intro i h hi
    cases i with
    | zero => rfl
    | succ j =>
      have hc : c.utf8Size = 1 := h c (List.mem_cons_self _ _)
      rw [isBoundary, if_pos (by omega)]
      have : j + 1 - c.utf8Size = j := by omega
      rw [this]
      exact ih j (fun x hx => h x (List.mem_cons_of_mem _ hx)) (by simpa using hi)

theorem removeByte_all_one (l : List Char) (h : ∀ c ∈ l, c.utf8Size = 1) :
    ∀ i : Nat, removeByte l i = l.eraseIdx i := by
  induction l with
  | nil => intro i; cases i <;> rfl
  | cons d ds ih =>
    intro i
    cases i with
    | zero => rfl
    | succ j =>
      have hd : d.utf8Size = 1 := h d (List.mem_cons_self _ _)
      rw [removeByte, if_pos (by omega)]
      have hj : j + 1 - d.utf8Size = j := by omega
      rw [hj, ih (fun x hx => h x (List.mem_cons_of_mem _ hx)) j]
      rfl

/-!
Claim theorems.
-/

/-- C1 (code bug evaluation): resize only stores the new width and performs no
re-wrap.  From the state reached by constructing with width 1 and inserting
the characters a, space, b one at a time, resize to width 3 leaves render
equal to the three wrapped lines, not the single line the specification and
the repository test tests::resize require. -/
theorem resize_does_not_rewrap :
    ((((Editor.new 1).add 'a').bind (fun e => e.add ' ')).bind (fun e => e.add 'b')).map
        (fun e => (e.resize 3).render)
      = some ['a', '\n', ' ', '\n', 'b'] ∧
    (['a', '\n', ' ', '\n', 'b'] : List Char) ≠ ['a', ' ', 'b'] := by
  constructor
  · decide
  · decide

/-- C2 (code bug evaluation): from the freshly constructed editor, enter
followed by move_down yields a state whose cursor line index 2 is not a valid
index into the two-line document, violating the cursor invariant. -/
theorem move_down_breaks_cursor_invariant :
    ((Editor.new 10).enter.bind Editor.move_down).map
        (fun e => (e.line, e.buffer.length, decide (e.line < e.buffer.length)))
      = some (2, 2, false) := by
  decide

/-- C3: for every sequence of input fragments and every width at least 1, the
concatenation of the word-wrap output lines equals the concatenation of the
input fragments exactly. -/
theorem wrap_lossless (fragments : List (List Char)) (width : Nat)
    (_h : 1 ≤ width) : (wrap fragments width).flatten = fragments.flatten := by
  unfold wrap
  rw [wrapAux_flatten, tokens_flatten]
  rfl

theorem wrap_lossless_witness :
    1 ≤ 1 ∧ (wrap [['a', ' ', 'b']] 1).flatten = ([['a', ' ', 'b']] : List (List Char)).flatten :=
  ⟨by decide, wrap_lossless [['a', ' ', 'b']] 1 (by decide)⟩

/-- C4: in the cursor remapping walk over the wrapped lines, a logical offset
equal to the total length of the first k wrapped lines (k at least 1) attaches
the cursor to the end of the k-th new line, column equal to that line's
length; a logical offset of 0 attaches it to column 0 of the first new
line. -/
theorem cursor_remap_tie_break (fragments : List (List Char)) (w s k : Nat)
    (h1 : 1 ≤ k) (h2 : k ≤ (wrap fragments w).length) :
    cursorWalk (wrap fragments w)
        ((((wrap fragments w).take k).map List.length).sum) s
      = (s + (k - 1), ((wrap fragments w).getD (k - 1) []).length)
    ∧ cursorWalk (wrap fragments w) 0 s = (s, 0) := by
  constructor
  · rcases wrap_lines_ne fragments w with hw | hw
    · rw [hw] at h2 ⊢
      simp at h2
      obtain rfl : k = 1 := by omega
      simp [cursorWalk_zero]
    · exact cursorWalk_boundary (wrap fragments w) k s h1 h2 hw
  · exact cursorWalk_zero _ _

theorem cursor_remap_tie_break_witness :
    (1 ≤ 2 ∧ 2 ≤ (wrap [['a', ' ', 'b']] 1).length) ∧
    cursorWalk (wrap [['a', ' ', 'b']] 1)
        ((((wrap [['a', ' ', 'b']] 1).take 2).map List.length).sum) 0 = (1, 1) ∧
    cursorWalk (wrap [['a', ' ', 'b']] 1) 0 0 = (0, 0) := by
  refine ⟨⟨by decide, by decide⟩, ?_, ?_⟩
  · exact ((cursor_remap_tie_break [['a', ' ', 'b']] 1 0 2 (by decide) (by decide)).1).trans
      (by decide)
  · exact (cursor_remap_tie_break [['a', ' ', 'b']] 1 0 2 (by decide) (by decide)).2

/-- C5 (code bug evaluation): with the two-line document obtained by inserting
a and pressing enter, the cursor sits on the last line (index 1 of 2), yet
move_down increments the line index to the out-of-range value 2 instead of
moving the column to the end of the last line, because at_last_line compares
the line index with the document length. -/
theorem move_down_last_line_increments :
    (((Editor.new 5).add 'a').bind Editor.enter).bind Editor.move_down
      = some { buffer := [['a'], []], line := 2, column := 0, width := 5 } := by
  decide

/-- C6: constructing with width 1 and inserting a, space, b one character at a
time yields exactly the three lines a, space, b, rendered with line breaks
between them. -/
theorem width_one_wrap_scenario :
    (((Editor.new 1).add 'a').bind (fun e => e.add ' ')).bind (fun e => e.add 'b')
      = some { buffer := [['a'], [' '], ['b']], line := 2, column := 1, width := 1 } ∧
    Editor.render { buffer := [['a'], [' '], ['b']], line := 2, column := 1, width := 1 }
      = ['a', '\n', ' ', '\n', 'b'] := by
  constructor
  · decide
  · decide

/-- C7 counterexample: the state reached by pressing enter from the fresh
editor has its cursor at (1, 0), not at the very start of the document, yet
backspace is a no-op there — refuting that backspace is a no-op exactly at
(0, 0) and otherwise removes a character. -/
theorem backspace_not_only_at_origin :
    (Editor.new 10).enter = some { buffer := [[], []], line := 1, column := 0, width := 10 } ∧
    Editor.cursor { buffer := [[], []], line := 1, column := 0, width := 10 } ≠ (0, 0) ∧
    Editor.backspace { buffer := [[], []], line := 1, column := 0, width := 10 }
      = some { buffer := [[], []], line := 1, column := 0, width := 10 } := by
  refine ⟨by decide, by decide, by decide⟩

/-- Supporting evidence for the C7 amendment: backspace does signal an error
from a reachable state with multi-byte text.  In the byte-accurate model,
after adding the two-byte character e-acute the remapping leaves the column at
byte 1; move_right (comparing against the byte length 2) steps it to 2, and
backspace then calls String::remove(1), a mid-character byte index, which
panics. -/
theorem backspace_bytes_multibyte_panics :
    (((Editor.new 10).add_bytes 'é').bind Editor.move_right_bytes).bind
        Editor.backspace_bytes = none := by
  decide

/-- C7 amended: backspace is a no-op exactly when the cursor column is 0 (in
particular at the very start of the document); when the column is positive and
every character of the cursor line is single-byte, it removes the character
immediately before the cursor column in the cursor line, steps the column back
by one, re-wraps the current paragraph, and does not signal an error (with
multi-byte characters the byte-indexed String::remove can panic
mid-character). -/
theorem backspace_bytes_column_semantics (e : Editor)
    (hl : ∀ ch ∈ e.buffer.getD e.line [], ch.utf8Size = 1) (hwf : WfBytes e) :
    (e.column = 0 → e.backspace_bytes = some e) ∧
    (0 < e.column →
       e.backspace_bytes = Editor.rewrap_bytes
           { e with buffer := e.buffer.set e.line
                      ((e.buffer.getD e.line []).eraseIdx (e.column - 1)),
                    column := e.column - 1 } ∧
       e.backspace_bytes.isSome) := by
  obtain ⟨h1, h2⟩ := hwf
  have hbl : byteLen (e.buffer.getD e.line []) = (e.buffer.getD e.line []).length :=
    byteLen_all_one _ hl
  constructor
  · intro h0
    unfold Editor.backspace_bytes
    rw [if_pos h0]
  · intro hpos
    unfold Editor.backspace_bytes
    rw [if_neg (by omega : ¬ e.column = 0), if_pos h1,
      if_pos ⟨by omega, isBoundary_all_one _ (e.column - 1) hl (by omega)⟩,
      removeByte_all_one _ hl (e.column - 1)]
    refine ⟨rfl, rewrap_bytes_isSome _ ?_⟩
    simpa using h1

theorem backspace_bytes_column_semantics_witness :
    ((∀ ch ∈ ([['a']] : List (List Char)).getD 0 [], ch.utf8Size = 1) ∧
      WfBytes { buffer := [['a']], line := 0, column := 1, width := 10 }) ∧
    (Editor.backspace_bytes { buffer := [['a']], line := 0, column := 1, width := 10 }).isSome :=
  ⟨⟨by decide, by decide⟩,
    ((backspace_bytes_column_semantics { buffer := [['a']], line := 0, column := 1, width := 10 }
      (by decide) (by decide)).2 (by decide)).2⟩

/-- C8 counterexample: with the byte-accurate reading of the source, adding a
two-byte character to the fresh editor leaves the cursor column at byte offset
1, in the middle of that character, and the next insert hits the
mid-character boundary-check error branch (String::insert panics). -/
theorem add_multibyte_hits_error_branch :
    ((Editor.new 10).add_bytes 'é').map Editor.cursor = some (0, 1) ∧
    ((Editor.new 10).add_bytes 'é').bind (fun e => e.add_bytes 'x') = none := by
  constructor
  · decide
  · decide

/-- C8 amended: column offsets are byte offsets into the UTF-8 text of the
line, not character indices; when every character of the cursor line is a
single-byte character the two coincide, the cursor column lies on a character
boundary, and insert, backspace and enter/split — each with its byte-counted
cursor remapping — slice only at character boundaries and never reach the
error branch. -/
theorem byte_ops_single_byte_no_error (e : Editor) (c : Char)
    (hl : ∀ ch ∈ e.buffer.getD e.line [], ch.utf8Size = 1) (hwf : WfBytes e) :
    (e.add_bytes c).isSome ∧ e.backspace_bytes.isSome ∧ e.enter_bytes.isSome ∧
      isBoundary (e.buffer.getD e.line []) e.column = true := by
  obtain ⟨h1, h2⟩ := hwf
  have hbl : byteLen (e.buffer.getD e.line []) = (e.buffer.getD e.line []).length :=
    byteLen_all_one _ hl
  refine ⟨?_, ?_, ?_, isBoundary_all_one _ e.column hl (by omega)⟩
  · unfold Editor.add_bytes
    rw [if_pos h1]
    by_cases hend : byteLen (e.buffer.getD e.line []) = e.column
    · rw [if_pos hend]
      exact rewrap_bytes_isSome _ (by simpa using h1)
    · rw [if_neg hend, if_pos ⟨by omega, isBoundary_all_one _ e.column hl (by omega)⟩]
      exact rewrap_bytes_isSome _ (by simpa using h1)
  · unfold Editor.backspace_bytes
    by_cases h0 : e.column = 0
    · rw [if_pos h0]
      rfl
    · rw [if_neg h0, if_pos h1,
        if_pos ⟨by omega, isBoundary_all_one _ (e.column - 1) hl (by omega)⟩]
      exact rewrap_bytes_isSome _ (by simpa using h1)
  · unfold Editor.enter_bytes
    rw [if_pos h1, if_pos ⟨h2, isBoundary_all_one _ e.column hl (by omega)⟩]
    rfl

theorem byte_ops_single_byte_no_error_witness :
    ((∀ ch ∈ ([['a']] : List (List Char)).getD 0 [], ch.utf8Size = 1) ∧
      WfBytes { buffer := [['a']], line := 0, column := 1, width := 10 }) ∧
    (Editor.add_bytes { buffer := [['a']], line := 0, column := 1, width := 10 } 'b').isSome ∧
    (Editor.backspace_bytes { buffer := [['a']], line := 0, column := 1, width := 10 }).isSome ∧
    (Editor.enter_bytes { buffer := [['a']], line := 0, column := 1, width := 10 }).isSome := by
  have h := byte_ops_single_byte_no_error
    { buffer := [['a']], line := 0, column := 1, width := 10 } 'b' (by decide) (by decide)
  exact ⟨⟨by decide, by decide⟩, h.1, h.2.1, h.2.2.1⟩

/-- C9: whenever the cursor column is 0 — on any line, not only the first —
backspace returns the state unchanged: same document lines, same cursor, and
in particular no joining of the cursor line with the preceding line. -/
theorem backspace_noop_at_column_zero (e : Editor) (h : e.column = 0) :
    e.backspace = some e := by
  unfold Editor.backspace
  rw [if_pos h]

theorem backspace_noop_at_column_zero_witness :
    Editor.backspace { buffer := [[], ['a']], line := 1, column := 0, width := 10 }
      = some { buffer := [[], ['a']], line := 1, column := 0, width := 10 } :=
  backspace_noop_at_column_zero { buffer := [[], ['a']], line := 1, column := 0, width := 10 } rfl

/-- C10: resize changes only the stored width field: the document lines, the
cursor coordinate, and hence the results of render and cursor, are all
unchanged. -/
theorem resize_changes_only_width (e : Editor) (w : Nat) :
    (e.resize w).buffer = e.buffer ∧ (e.resize w).line = e.line ∧
    (e.resize w).column = e.column ∧ (e.resize w).width = w ∧
    (e.resize w).render = e.render ∧ (e.resize w).cursor = e.cursor :=
  ⟨rfl, rfl, rfl, rfl, rfl, rfl⟩

end Nunitius
